import Mathlib

/-!
Verification of the Excel→PDF converter (`src/app.py`) against its
natural-language specification.

The development shallowly embeds the program:

* `extract_page_setup_from_excel` — the metadata extractor.  The openpyxl
  parse is modelled as an `Except` input (the Python `try`/`except Exception`
  maps any parse failure to the empty result); `PageSetupMeta` records the
  workbook's stored print data (integer paper-size code, orientation
  keyword, page margins in inches, center footer text).  The code's margin
  reads `ps.top` … `ps.right` target `worksheet.page_setup`, whose openpyxl
  class `PrintPageSetup` has no margin attributes (margins live on
  `worksheet.page_margins`), so line 43 raises `AttributeError` into the
  same `except` for every successfully parsed workbook and the extractor
  returns the empty result for every input.
* the `PDF` class and `process_excel_to_pdf_cross_platform` — the layout
  engine.  The pyfpdf 1.7 primitives the code calls (`add_page`, `cell`,
  `multi_cell`, `ln`, `set_xy`, `set_y`, the automatic page break of `cell`,
  `footer`, `alias_nb_pages`) are embedded as explicit state transitions on
  a `LayoutState` (current page, cursor, last cell height, emitted drawing
  instructions).  Text wrapping is abstracted: a body cell is represented by
  its wrapped line count (pyfpdf draws one `cell` of height 8 per wrapped
  line, at least one even for empty text); all geometry (page sizes in mm,
  margins, the page-break trigger `h - b_margin` that each sheet's explicit
  `add_page()` recomputes after `b_margin` has been assigned the configured
  bottom margin) is exact rational arithmetic.
* footer token substitution — Python's `str.replace` is embedded as
  `replaceAll` on `List Char` (leftmost, non-overlapping), `str(page_no)`
  as `natChars`, and fpdf's `alias_nb_pages` finalisation as a final
  `replaceAll` of the `{nb}` alias by the total page count.
-/

attribute [local semireducible] Rat.add Rat.mul Rat.inv Rat.sub Rat.ofScientific

set_option maxRecDepth 8000

namespace ExcelApp

/-! ## Python string primitives used by the code -/

/-- Decimal digit character for `d < 10` (the argument is always `< 10`
where used). -/
def digitChar (d : Nat) : Char :=
  match d with
  | 0 => '0' | 1 => '1' | 2 => '2' | 3 => '3' | 4 => '4'
  | 5 => '5' | 6 => '6' | 7 => '7' | 8 => '8' | _ => '9'

/-- Fuel-driven accumulator for `natChars`. -/
def natCharsAux : Nat → Nat → List Char → List Char
  | 0, _, acc => acc
  | fuel + 1, n, acc =>
    if n < 10 then digitChar n :: acc
    else natCharsAux fuel (n / 10) (digitChar (n % 10) :: acc)

/-- Embedding of Python `str(n)` for a nonnegative integer: decimal digits. -/
def natChars (n : Nat) : List Char := natCharsAux (n + 1) n []

/-- One pass of Python `s.replace(pat, rep)`, with fuel bounding the scan
length so that the definition is structurally recursive (hence evaluates in
the kernel).  Matches are found leftmost and replaced non-overlapping,
exactly as CPython's `str.replace` does for a non-empty pattern. -/
def replaceAllF (pat rep : List Char) : Nat → List Char → List Char
  | 0, s => s
  | _ + 1, [] => []
  | fuel + 1, c :: cs =>
    if pat ≠ [] ∧ pat.isPrefixOf (c :: cs) then
      rep ++ replaceAllF pat rep fuel ((c :: cs).drop pat.length)
    else
      c :: replaceAllF pat rep fuel cs

/-- Embedding of Python `s.replace(pat, rep)` (all occurrences). -/
def replaceAll (pat rep s : List Char) : List Char :=
  replaceAllF pat rep s.length s

/-- Whether `pat` occurs as a contiguous sublist of `s`. -/
def occursB (pat : List Char) : List Char → Bool
  | [] => pat.isEmpty
  | c :: cs => pat.isPrefixOf (c :: cs) || occursB pat cs

/-! ## Metadata extractor (`extract_page_setup_from_excel`) -/

/-- The print data stored in a successfully parsed workbook.  `paperSize`
is openpyxl's `PrintPageSetup.paperSize`, an `Integer` descriptor — an int
code or `None`; `orientation` is the stored keyword.  The four margins are
the workbook's stored page margins in inches: they live on
`worksheet.page_margins`, not on `worksheet.page_setup`, so the code's
reads `ps.top` … `ps.right` (app.py:43-46) raise `AttributeError`; likewise
the stored center footer lives on `worksheet.oddFooter` and the
`worksheet.footer` read (app.py:50) would raise too.  `none` models an
absent value (Python `None`). -/
structure PageSetupMeta where
  paperSize : Option Int
  orientation : Option String
  top : Option ℚ
  bottom : Option ℚ
  left : Option ℚ
  right : Option ℚ
  footerCenter : String
deriving DecidableEq

/-- The settings dictionary the function's docstring promises (paper size,
orientation, four margins, footer) — the type of a successful result.  The
program never produces one: see `extract_page_setup_from_excel`. -/
structure PageSettings where
  paper : String
  orient : String
  topMargin : ℚ
  bottomMargin : ℚ
  leftMargin : ℚ
  rightMargin : ℚ
  footerText : String
deriving DecidableEq

/-- `PAPER_SIZE_MAP_REVERSE = {'1': 'Letter', '8': 'A3', '9': 'A4'}` — keyed
by strings, while openpyxl's `ps.paperSize` is an int, so the executed
lookup `.get(ps.paperSize, 'A4')` (app.py:39) can never hit a key; its
result is in any case discarded when line 43 raises. -/
def PAPER_SIZE_MAP_REVERSE (c : String) : Option String :=
  if c = "1" then some "Letter"
  else if c = "8" then some "A3"
  else if c = "9" then some "A4"
  else none

/-- `ORIENTATION_MAP_REVERSE = {'portrait': '直向', 'landscape': '橫向'}` —
looked up at app.py:40 into the local `settings`, which is discarded when
line 43 raises. -/
def ORIENTATION_MAP_REVERSE (s : String) : Option String :=
  if s = "portrait" then some "直向"
  else if s = "landscape" then some "橫向"
  else none

/-- `INCH_TO_CM = 2.54` — referenced only on the dead lines 43-46. -/
def INCH_TO_CM : ℚ := 254 / 100

/-- `extract_page_setup_from_excel`.  On a parse failure
(`openpyxl.load_workbook` raising — corrupt bytes, unsupported format), the
`except Exception` returns the empty dict, modelled as `none`.  On a
successful parse the body runs app.py:26-40 (the paper-size and orientation
lookups into the local `settings` dict), and then line 43 evaluates
`ps.top`: openpyxl's `PrintPageSetup` has no margin attributes, so the read
raises `AttributeError`, the same `except Exception` catches it, the
partially built `settings` is discarded and the empty dict is returned.
Hence the extractor returns the empty settings object for every input. -/
def extract_page_setup_from_excel (parsed : Except String PageSetupMeta) :
    Option PageSettings :=
  match parsed with
  | .error _ => none
  | .ok _ => none

/-! ## Page layout engine (`PDF` class and `process_excel_to_pdf_cross_platform`)

Geometry is in mm (`unit='mm'`, so fpdf's scale factor is `k = 72/25.4`).
Page formats are fpdf's point tables: A4 `(595.28, 841.89)`,
A3 `(841.89, 1190.55)`, Letter `(612, 792)`.  The `PDF` constructor calls
`set_auto_page_break(auto=True, margin=15)`, setting
`page_break_trigger = h - 15`; then `pdf.b_margin = options['下邊距'] * 10`
re-assigns the attribute, and each sheet's explicit `pdf.add_page()` (pyfpdf
`_beginpage` with `same=False`) recomputes
`page_break_trigger = h - b_margin`.  The first such `add_page()` precedes
all drawing, and the automatic in-cell break calls `add_page(same=True)`,
which preserves the trigger — so during every drawing operation the trigger
is `h - 10·bottom_cm` (the constructor's 15 mm is overwritten before use). -/

/-- Paper size option (`st.selectbox` offers exactly these). -/
inductive Paper | A4 | A3 | Letter
deriving DecidableEq

/-- fpdf page format in points `(width, height)`. -/
def paper_pt : Paper → ℚ × ℚ
  | .A4 => (59528/100, 84189/100)
  | .A3 => (84189/100, 119055/100)
  | .Letter => (612, 792)

/-- fpdf orientation. -/
inductive Orient | P | L
deriving DecidableEq

/-- `orientation_map = {'直向': 'P', '橫向': 'L'}` read with `.get(…, 'P')`. -/
def orientation_map (s : String) : Orient :=
  if s = "直向" then .P else if s = "橫向" then .L else .P

/-- The validated options dictionary handed to
`process_excel_to_pdf_cross_platform` (margins in cm, as in the form). -/
structure ConversionOptions where
  paper : Paper
  orientStr : String
  top : ℚ
  bottom : ℚ
  left : ℚ
  right : ℚ
  footerText : List Char

/-- Resolved page geometry of the `PDF` object after construction and the
four margin assignments (all lengths in mm). -/
structure Geometry where
  w : ℚ
  h : ℚ
  l_margin : ℚ
  t_margin : ℚ
  r_margin : ℚ
  b_margin : ℚ
  trigger : ℚ

/-- fpdf's mm scale factor `k = 72 / 25.4`. -/
def mmScale : ℚ := 360 / 127

/-- Build the `PDF` object's geometry from the options: format and
orientation give `w`/`h`; margins are the cm values times 10; the page-break
trigger is `h - b_margin`, the value every sheet's `add_page()` installs
after `b_margin` has been assigned the configured bottom margin (see the
section comment — the constructor's interim `h - 15` is overwritten before
anything is drawn). -/
def geometryOf (opts : ConversionOptions) : Geometry :=
  let p := paper_pt opts.paper
  let fw := p.1 / mmScale
  let fh := p.2 / mmScale
  let wh : ℚ × ℚ := match orientation_map opts.orientStr with
    | .P => (fw, fh)
    | .L => (fh, fw)
  { w := wh.1, h := wh.2
    l_margin := opts.left * 10, t_margin := opts.top * 10
    r_margin := opts.right * 10, b_margin := opts.bottom * 10
    trigger := wh.2 - opts.bottom * 10 }

/-- Which drawing call emitted an instruction: the sheet-title `cell`, a
header-band `cell`, or one wrapped line of a body `multi_cell`
(`row`, `col` locate the table cell, `line` the wrapped line within it). -/
inductive InstrKind
  | title
  | header
  | body (row col line : Nat)
deriving DecidableEq

/-- One emitted drawing instruction: page number (1-based) and the cell
rectangle `(x, y, w, h)` in mm. -/
structure Instr where
  page : Nat
  x : ℚ
  y : ℚ
  w : ℚ
  h : ℚ
  kind : InstrKind
deriving DecidableEq

/-- Mutable drawing state of the `PDF` object. -/
structure LayoutState where
  page : Nat
  x : ℚ
  y : ℚ
  lasth : ℚ
  instrs : List Instr
deriving DecidableEq

/-- `pdf.add_page()`: next page, cursor to the top-left content corner. -/
def add_page (g : Geometry) (st : LayoutState) : LayoutState :=
  { st with page := st.page + 1, x := g.l_margin, y := g.t_margin }

/-- The automatic page break at the head of fpdf's `cell`: if
`y + h > page_break_trigger`, a new page is started and `x` is restored. -/
def autoBreak (g : Geometry) (h : ℚ) (st : LayoutState) : LayoutState :=
  if st.y + h > g.trigger then
    { st with page := st.page + 1, y := g.t_margin }
  else st

/-- fpdf `cell(w, h, …, ln)`: automatic page break, `w == 0` resolving to
the distance to the right margin, emission of the cell, then the `ln` move
(`0`: right of the cell; `1`: next line at the left margin; `2`: below). -/
def cellOp (g : Geometry) (w h : ℚ) (k : InstrKind) (ln : Nat)
    (st : LayoutState) : LayoutState :=
  let st1 := autoBreak g h st
  let w' := if w = 0 then g.w - g.r_margin - st1.x else w
  let st2 := { st1 with
    instrs := st1.instrs ++ [(⟨st1.page, st1.x, st1.y, w', h, k⟩ : Instr)]
    lasth := h }
  if ln = 0 then { st2 with x := st2.x + w' }
  else if ln = 1 then { st2 with x := g.l_margin, y := st2.y + h }
  else { st2 with y := st2.y + h }

/-- `pdf.ln()` with no argument: left margin, down by the last cell height. -/
def lnOp (g : Geometry) (st : LayoutState) : LayoutState :=
  { st with x := g.l_margin, y := st.y + st.lasth }

/-- fpdf `set_x`: negative arguments measure from the right edge. -/
def set_x (g : Geometry) (x : ℚ) (st : LayoutState) : LayoutState :=
  { st with x := if 0 ≤ x then x else g.w + x }

/-- fpdf `set_y`: resets `x` to the left margin; negative arguments measure
from the bottom edge. -/
def set_y (g : Geometry) (y : ℚ) (st : LayoutState) : LayoutState :=
  { st with x := g.l_margin, y := if 0 ≤ y then y else g.h + y }

/-- fpdf `set_xy(x, y)` = `set_y(y)` then `set_x(x)`. -/
def set_xy (g : Geometry) (x y : ℚ) (st : LayoutState) : LayoutState :=
  set_x g x (set_y g y st)

/-- The line loop of fpdf `multi_cell`: one `cell(w, 8, …, ln=2)` per
wrapped line (`j` is the index of the next line, `n` the lines left). -/
def mcLines (g : Geometry) (w h : ℚ) (r c : Nat) (j : Nat) :
    Nat → LayoutState → LayoutState
  | 0, st => st
  | n + 1, st => mcLines g w h r c (j + 1) n (cellOp g w h (.body r c j) 2 st)

/-- fpdf `multi_cell(w, h, …)` for a text wrapping into `n` lines: resolve
`w == 0`, draw the lines, then return `x` to the left margin.  The source
always yields `n ≥ 1` (even an empty string produces one line). -/
def multi_cell (g : Geometry) (w h : ℚ) (r c : Nat) (n : Nat)
    (st : LayoutState) : LayoutState :=
  let w' := if w = 0 then g.w - g.r_margin - st.x else w
  let st' := mcLines g w' h r c 0 n st
  { st' with x := g.l_margin }

/-- `page_width = pdf.w - pdf.l_margin - pdf.r_margin`. -/
def contentWidth (g : Geometry) : ℚ := g.w - g.l_margin - g.r_margin

/-- `col_width = page_width / len(headers)`. -/
def colWidthOf (g : Geometry) (n : Nat) : ℚ := contentWidth g / n

/-- One sheet as the loader hands it over: name, the stringified column
headers, and per body row the wrapped line count of each cell's display
text at the column width (`str(item)` wraps into at least one line). -/
structure Sheet where
  name : String
  headers : List String
  rows : List (List Nat)

/-- The header-band loop: `pdf.cell(col_width, 8, header, 1, 0, 'C',
fill=True)` for each header. -/
def drawHeaders (g : Geometry) (colW : ℚ) (hs : List String)
    (st : LayoutState) : LayoutState :=
  hs.foldl (fun s _ => cellOp g colW 8 .header 0 s) st

/-- The per-cell loop of one body row (`for i, item in enumerate(str_row)`),
also tracking `max_y`: `set_xy(l_margin + i * col_width, get_y())`, then
`multi_cell(col_width, 8, item, border=1, align='L')`, then update `max_y`. -/
def rowLoop (g : Geometry) (colW : ℚ) (r : Nat) :
    Nat → List Nat → LayoutState × ℚ → LayoutState × ℚ
  | _, [], p => p
  | i, n :: rest, (st, maxY) =>
    let st1 := set_xy g (g.l_margin + (i : ℚ) * colW) st.y st
    let st2 := multi_cell g colW 8 r i n st1
    rowLoop g colW r (i + 1) rest (st2, if maxY < st2.y then st2.y else maxY)

/-- One body row: `max_y = get_y()`, the per-cell loop, then `set_y(max_y)`. -/
def drawRow (g : Geometry) (colW : ℚ) (r : Nat) (row : List Nat)
    (st : LayoutState) : LayoutState :=
  let p := rowLoop g colW r 0 row (st, st.y)
  set_y g p.2 p.1

/-- The body-row loop (`for index, row in df.iterrows()`). -/
def drawRows (g : Geometry) (colW : ℚ) : Nat → List (List Nat) →
    LayoutState → LayoutState
  | _, [], st => st
  | r, row :: rest, st => drawRows g colW (r + 1) rest (drawRow g colW r row st)

/-- One iteration of the sheet loop: `add_page()`, the sheet-title
`cell(0, 10, sheet_name, 0, 1, 'L')`, then — unless the sheet has no
columns (`if not headers: continue`) — the header band, `ln()`, and the
body rows. -/
def drawSheet (g : Geometry) (st : LayoutState) (sh : Sheet) : LayoutState :=
  let st1 := cellOp g 0 10 .title 1 (add_page g st)
  if sh.headers = [] then st1
  else
    let colW := colWidthOf g sh.headers.length
    let st2 := lnOp g (drawHeaders g colW sh.headers st1)
    drawRows g colW 0 sh.rows st2

/-! ## Footer rendering and document assembly -/

/-- fpdf's `{nb}` total-page-count alias (`alias_nb_pages()` default). -/
def nbAlias : List Char := ['\x7b', 'n', 'b', '\x7d']

/-- `PDF.footer`: `footer_text.replace('&P', str(page_no)).replace('&N',
'\x7bnb\x7d')`, run once per page with that page's number. -/
def pdfFooter (footer_text : List Char) (page_no : Nat) : List Char :=
  replaceAll ['&', 'N'] nbAlias
    (replaceAll ['&', 'P'] (natChars page_no) footer_text)

/-- The `alias_nb_pages` finalisation pass at `pdf.output`: every
occurrence of the alias in the page content is replaced by the total page
count. -/
def aliasNbSubst (s : List Char) (total : Nat) : List Char :=
  replaceAll nbAlias (natChars total) s

/-- The footer text of page `p` as it appears in the final output. -/
def rendered_footer (template : List Char) (p total : Nat) : List Char :=
  aliasNbSubst (pdfFooter template p) total

/-- The assembled document: drawing instructions, total page count, and the
finalised footer of each page (page `p` at index `p - 1`). -/
structure Document where
  instrs : List Instr
  pages : Nat
  footers : List (List Char)
deriving DecidableEq

/-- The whole drawing pass of `process_excel_to_pdf_cross_platform` after a
successful parse: sheet loop from a fresh `PDF` (page 0), then
`alias_nb_pages` resolution at `output` (fpdf's `close` adds a page if none
was ever added). -/
def run_layout (opts : ConversionOptions) (sheets : List Sheet) : Document :=
  let g := geometryOf opts
  let st := sheets.foldl (drawSheet g) ⟨0, 0, 0, 0, []⟩
  let total := if st.page = 0 then 1 else st.page
  { instrs := st.instrs
    pages := total
    footers := (List.range total).map
      (fun i => rendered_footer opts.footerText (i + 1) total) }

/-- `process_excel_to_pdf_cross_platform`: the pandas parse may fail
(`Except.error`, caught by the surrounding `try` → `return None`); a
missing font file returns `None` before any layout; otherwise the layout
runs and the serialized document is returned. -/
def process_excel_to_pdf_cross_platform (font_exists : Bool)
    (parsed : Except String (List Sheet)) (opts : ConversionOptions) :
    Option Document :=
  match parsed with
  | .error _ => none
  | .ok sheets =>
    if font_exists then some (run_layout opts sheets) else none

/-! ## Claim-level helper predicates and concrete test inputs -/

/-- Whether an instruction is a body-cell line. -/
def InstrKind.isBody : InstrKind → Bool
  | .body _ _ _ => true
  | _ => false

/-- Whether an instruction is a header-band cell. -/
def InstrKind.isHeader : InstrKind → Bool
  | .header => true
  | _ => false

/-- Whether an instruction is a sheet-title cell. -/
def InstrKind.isTitle : InstrKind → Bool
  | .title => true
  | _ => false

/-- The `&P` page-number token. -/
def pToken : List Char := ['&', 'P']

/-- The `&N` total-pages token. -/
def nToken : List Char := ['&', 'N']

/-- Cells of one row all satisfy the source invariant that a stringified
value wraps into at least one line. -/
def validRow (row : List Nat) : Prop := ∀ c ∈ row, 1 ≤ c

/-- Default options: A4 portrait, the default margins
(top 1.9, bottom 1.5, left 1.2, right 1.2 cm), the default footer. -/
def optsDefault : ConversionOptions :=
  { paper := .A4, orientStr := "直向", top := 19/10, bottom := 15/10,
    left := 12/10, right := 12/10, footerText := "第 &P 頁 / 共 &N 頁".data }

/-- Options whose margins (20 cm each side) exceed the A4 paper size. -/
def optsWide : ConversionOptions :=
  { paper := .A4, orientStr := "直向", top := 20, bottom := 20,
    left := 20, right := 20, footerText := "第 &P 頁 / 共 &N 頁".data }

/-- The default-options geometry. -/
def gDefault : Geometry := geometryOf optsDefault

/-- A fresh `PDF` object's drawing state (page 0, nothing drawn). -/
def stInit : LayoutState := ⟨0, 0, 0, 0, []⟩

/-- One-column sheet with 31 single-line rows: at default A4 geometry the
31st row crosses the automatic page-break trigger. -/
def sheetData31 : Sheet := ⟨"Data", ["c"], List.replicate 31 [1]⟩

/-- Two-column sheet with one row whose first cell wraps into two lines
and whose second cell has one line. -/
def sheetStair : Sheet := ⟨"S", ["a", "b"], [[2, 1]]⟩

/-- A sheet with no columns but one (pandas-impossible-to-render) row. -/
def sheetNoCols : Sheet := ⟨"E", [], [[1]]⟩

/-- A minimal one-column one-row sheet. -/
def sheetSmall : Sheet := ⟨"T", ["h"], [[1]]⟩

/-- Drawing state at the start of the body of a one-page sheet at default
geometry: page 1, cursor at `(12, 37)` (left margin, below the header
band), last cell height 8. -/
def stBody : LayoutState := ⟨1, 12, 37, 8, []⟩

/-- A workbook whose print setup stores nothing. -/
def metaBase : PageSetupMeta := ⟨none, none, none, none, none, none, ""⟩

/-- A workbook storing openpyxl's integer Letter paper-size code. -/
def metaLetter : PageSetupMeta := { metaBase with paperSize := some 1 }

/-- A workbook whose stored top page margin is exactly 0 inches. -/
def metaZeroTop : PageSetupMeta := { metaBase with top := some 0 }

/-- A workbook whose stored top page margin is 1 inch. -/
def metaTopOne : PageSetupMeta := { metaBase with top := some 1 }

/-- A workbook whose stored top page margin is 2.5 cm written in inches. -/
def metaTop25 : PageSetupMeta := { metaBase with top := some ((25/10) / INCH_TO_CM) }

/-! ## C6, C7 — error-path behaviour -/

/-- C6: for every input to the metadata extractor whose parse fails (corrupt
bytes, unsupported format, missing metadata block — any exception from
`openpyxl.load_workbook` or the field reads), the extractor returns the
empty settings object instead of raising past its boundary. -/
theorem C6_parse_error_yields_empty (msg : String) :
    extract_page_setup_from_excel (Except.error msg) = none := rfl

/-- C7: a failed workbook parse (corrupt or unsupported bytes handed to the
sheet loader) or a missing font file aborts the whole conversion with no
output bytes — `process_excel_to_pdf_cross_platform` returns `None`, never
a partial document. -/
theorem C7_failure_aborts_without_output :
    (∀ (e : String) (fontOk : Bool) (opts : ConversionOptions),
      process_excel_to_pdf_cross_platform fontOk (.error e) opts = none) ∧
    (∀ (sheets : List Sheet) (opts : ConversionOptions),
      process_excel_to_pdf_cross_platform false (.ok sheets) opts = none) :=
  ⟨fun _ _ _ => rfl, fun _ _ => rfl⟩

/-! ## C3 — geometry validation -/

/-- C3 counterexample: with margins of 20 cm on every side of an A4 page the
content width is negative, yet the conversion does not abort with a
geometry error before layout: it lays out body cells and returns a
document. -/
theorem C3_counterexample :
    contentWidth (geometryOf optsWide) < 0 ∧
    ((process_excel_to_pdf_cross_platform true (.ok [sheetSmall]) optsWide).elim
      false (fun d => d.instrs.any (fun i => i.kind.isBody))) = true :=
  ⟨by decide, by decide⟩

/-- C3 amended: the code performs no geometry validation at all — the
conversion returns no output exactly when the workbook parse fails or the
font file is missing; margins exceeding the paper size still run the whole
layout (with negative content width) and produce output bytes. -/
theorem C3_amended (fontOk : Bool) (parsed : Except String (List Sheet))
    (opts : ConversionOptions) :
    process_excel_to_pdf_cross_platform fontOk parsed opts = none ↔
      (∃ e, parsed = Except.error e) ∨ fontOk = false := by
  cases parsed with
  | error e =>
    simp [process_excel_to_pdf_cross_platform]
  | ok sheets =>
    cases fontOk <;> simp [process_excel_to_pdf_cross_platform]

/-! ## C4 — column widths and zero-column sheets -/

/-- C4 counterexample: a sheet with zero columns is skipped (`continue`)
right after its title line — despite having a body row, no header-band cell
and no body cell is ever drawn, so the content width is not treated as a
single column. -/
theorem C4_counterexample :
    sheetNoCols.rows ≠ [] ∧
    (run_layout optsDefault [sheetNoCols]).instrs.all (fun i => i.kind.isTitle) = true ∧
    (run_layout optsDefault [sheetNoCols]).instrs.length = 1 :=
  ⟨by decide, by decide, by decide⟩

/-- C4 amended: for a sheet with `n ≥ 1` columns each column's width is the
content width divided by `n` (exactly, so width × n equals the content
width); a sheet with zero columns is skipped after its title line (no
header band, no body cells), not laid out as a single column. -/
theorem C4_amended :
    (∀ (opts : ConversionOptions) (n : ℕ), 1 ≤ n →
      colWidthOf (geometryOf opts) n * (n : ℚ) = contentWidth (geometryOf opts)) ∧
    (∀ (g : Geometry) (st : LayoutState) (sh : Sheet), sh.headers = [] →
      drawSheet g st sh = cellOp g 0 10 .title 1 (add_page g st)) := by
  constructor
  · intro opts n hn
    have hne : (n : ℚ) ≠ 0 := Nat.cast_ne_zero.mpr (by omega)
    simp [colWidthOf, div_mul_cancel₀, hne]
  · intro g st sh h
    simp [drawSheet, h]

/-- Witness for `C4_amended` at `n = 3` and at the zero-column sheet. -/
theorem C4_witness :
    (1 ≤ 3 ∧ colWidthOf (geometryOf optsDefault) 3 * ((3 : ℕ) : ℚ) =
      contentWidth (geometryOf optsDefault)) ∧
    (sheetNoCols.headers = [] ∧
      drawSheet gDefault stInit sheetNoCols =
        cellOp gDefault 0 10 .title 1 (add_page gDefault stInit)) :=
  ⟨⟨by decide, C4_amended.1 optsDefault 3 (by decide)⟩,
   ⟨rfl, C4_amended.2 gDefault stInit sheetNoCols rfl⟩⟩

/-! ## C8, C9 — the metadata success path is dead code -/

/-- C8: the extractor never returns a paper-size mapping — even for a
workbook storing the Letter code, the margin read at app.py:43 raises
`AttributeError` into the blanket `except`, so the empty settings object
comes back for this and every other input.  (Independently, the executed
lookup at line 39 keys a string-keyed dict with an int code, so it could
only ever have produced the `'A4'` default anyway.) -/
theorem C8_extractor_returns_empty :
    extract_page_setup_from_excel (Except.ok metaLetter) = none ∧
    ∀ parsed, extract_page_setup_from_excel parsed = none :=
  ⟨rfl, fun parsed => match parsed with
    | .error _ => rfl
    | .ok _ => rfl⟩

/-- C9: no margin is ever converted from inches to centimeters: for a
workbook storing a 2.5 cm (≈ 0.984 in) top margin, and for one storing a
1 in margin, the extractor returns the empty settings object — the
conversion lines app.py:43-46 die at the `ps.top` read before any
`round(t * 2.54, 1)` or default can be produced. -/
theorem C9_extractor_returns_empty :
    extract_page_setup_from_excel (Except.ok metaTop25) = none ∧
    extract_page_setup_from_excel (Except.ok metaTopOne) = none :=
  ⟨rfl, rfl⟩

/-! ## C10 — stored zero margins -/

/-- C10 counterexample: for a workbook whose stored top margin is exactly 0
the extractor does not return a settings object carrying the default 1.9 —
it returns the empty settings object, because evaluating `ps.top` itself
raises before the truthiness test `if ps.top` can run. -/
theorem C10_counterexample :
    extract_page_setup_from_excel (Except.ok metaZeroTop) = none ∧
    ¬∃ s : PageSettings,
      extract_page_setup_from_excel (Except.ok metaZeroTop) = some s ∧
        s.topMargin = 19/10 := by
  refine ⟨rfl, ?_⟩
  rintro ⟨s, hs, _⟩
  simp [extract_page_setup_from_excel] at hs

/-- C10 amended: a workbook whose stored margin is exactly 0 yields — like
every workbook — the empty settings object: the dead truthiness fallback
`if ps.top else 1.9` never executes, and in particular a stored zero margin
can never be recovered through the metadata pre-fill entry point. -/
theorem C10_amended (ps : PageSetupMeta) (_h : ps.top = some 0) :
    extract_page_setup_from_excel (Except.ok ps) = none := rfl

/-- Witness for `C10_amended` at the zero-top-margin workbook. -/
theorem C10_witness :
    metaZeroTop.top = some 0 ∧
    extract_page_setup_from_excel (Except.ok metaZeroTop) = none :=
  ⟨rfl, C10_amended metaZeroTop rfl⟩

/-! ## C5 — footer token substitution: `replaceAll` infrastructure -/

theorem replaceAllF_nil (pat rep : List Char) (f : Nat) :
    replaceAllF pat rep f [] = [] := by
  cases f <;> rfl

/-- The fuel of `replaceAllF` is irrelevant once it covers the scan. -/
theorem replaceAllF_fuel (pat rep : List Char) :
    ∀ (f1 f2 : Nat) (s : List Char), s.length ≤ f1 → s.length ≤ f2 →
      replaceAllF pat rep f1 s = replaceAllF pat rep f2 s := by
  intro f1
  induction f1 with
  | zero =>
    intro f2 s h1 _
    have hs : s = [] := List.length_eq_zero.mp (Nat.le_zero.mp h1)
    subst hs
    rw [replaceAllF_nil, replaceAllF_nil]
  | succ f ih =>
    intro f2 s h1 h2
    cases s with
    | nil => rw [replaceAllF_nil, replaceAllF_nil]
    | cons c cs =>
      cases f2 with
      | zero => simp at h2
      | succ f2' =>
        simp only [replaceAllF]
        by_cases hc : pat ≠ [] ∧ pat.isPrefixOf (c :: cs) = true
        · rw [if_pos hc, if_pos hc]
          have hp : 1 ≤ pat.length := by
            cases pat with
            | nil => exact absurd rfl hc.1
            | cons a as => simp
          have hlen : ((c :: cs).drop pat.length).length ≤ f ∧
              ((c :: cs).drop pat.length).length ≤ f2' := by
            simp only [List.length_drop, List.length_cons]
            simp only [List.length_cons] at h1 h2
            omega
          rw [ih f2' _ hlen.1 hlen.2]
        · rw [if_neg hc, if_neg hc]
          simp only [List.length_cons] at h1 h2
          rw [ih f2' cs (by omega) (by omega)]

theorem replaceAll_nil (pat rep : List Char) : replaceAll pat rep [] = [] := rfl

/-- Unfolding `replaceAll` at a matching head: emit the replacement and
continue after the pattern. -/
theorem replaceAll_cons_of_match (pat rep : List Char) (c : Char) (cs : List Char)
    (h1 : pat ≠ []) (h2 : pat.isPrefixOf (c :: cs) = true) :
    replaceAll pat rep (c :: cs) =
      rep ++ replaceAll pat rep ((c :: cs).drop pat.length) := by
  simp only [replaceAll, List.length_cons, replaceAllF]
  rw [if_pos ⟨h1, h2⟩]
  have hp : 1 ≤ pat.length := by
    cases pat with
    | nil => exact absurd rfl h1
    | cons a as => simp
  have hlen : ((c :: cs).drop pat.length).length ≤ cs.length := by
    simp only [List.length_drop, List.length_cons]
    omega
  rw [replaceAllF_fuel pat rep cs.length _ _ hlen (le_refl _)]

/-- Unfolding `replaceAll` at a non-matching head: keep the character. -/
theorem replaceAll_cons_of_nomatch (pat rep : List Char) (c : Char) (cs : List Char)
    (h : ¬(pat ≠ [] ∧ pat.isPrefixOf (c :: cs) = true)) :
    replaceAll pat rep (c :: cs) = c :: replaceAll pat rep cs := by
  simp only [replaceAll, List.length_cons, replaceAllF]
  rw [if_neg h]

theorem replaceAll_cons_of_prefix_false (pat rep : List Char) (c : Char)
    (cs : List Char) (hpre : pat.isPrefixOf (c :: cs) = false) :
    replaceAll pat rep (c :: cs) = c :: replaceAll pat rep cs :=
  replaceAll_cons_of_nomatch pat rep c cs
    (fun hcon => by rw [hpre] at hcon; exact absurd hcon.2 (by simp))

/-- A block of characters that never start the pattern hops over the
replacement untouched. -/
theorem replaceAll_append_left (p0 : Char) (pt rep : List Char) :
    ∀ (a b : List Char), p0 ∉ a →
      replaceAll (p0 :: pt) rep (a ++ b) = a ++ replaceAll (p0 :: pt) rep b := by
  intro a
  induction a with
  | nil => intro b _; rfl
  | cons x xs ih =>
    intro b hx
    simp only [List.mem_cons, not_or] at hx
    have hbeq : (p0 == x) = false := beq_eq_false_iff_ne.mpr hx.1
    have hpre : (p0 :: pt).isPrefixOf (x :: (xs ++ b)) = false := by
      simp [List.isPrefixOf, hbeq]
    rw [List.cons_append, replaceAll_cons_of_prefix_false _ _ _ _ hpre, ih b hx.2,
      List.cons_append]

/-- The head of a `replaceAll` result is the original head or the
replacement's head. -/
theorem replaceAll_head_cases (pat rep t : List Char) (hr : rep ≠ []) :
    (replaceAll pat rep t).head? = t.head? ∨
    (replaceAll pat rep t).head? = rep.head? := by
  cases t with
  | nil => left; rfl
  | cons c cs =>
    by_cases h : pat ≠ [] ∧ pat.isPrefixOf (c :: cs) = true
    · right
      rw [replaceAll_cons_of_match _ _ _ _ h.1 h.2]
      cases rep with
      | nil => exact absurd rfl hr
      | cons r rs => rfl
    · left
      rw [replaceAll_cons_of_nomatch _ _ _ _ h]
      rfl

/-- A pattern that does not occur leaves the text unchanged. -/
theorem replaceAll_of_not_occurs (pat rep : List Char) :
    ∀ s, occursB pat s = false → replaceAll pat rep s = s := by
  intro s
  induction s with
  | nil => intro _; rfl
  | cons c cs ih =>
    intro h
    simp only [occursB, Bool.or_eq_false_iff] at h
    rw [replaceAll_cons_of_prefix_false _ _ _ _ h.1, ih h.2]

/-! Prefix-test helper facts for two-character tokens. -/

theorem pairPrefix_cc (p q : Char) (t : List Char) :
    ([p, q]).isPrefixOf (p :: q :: t) = true := by
  simp [List.isPrefixOf]

theorem pairPrefix_one (p q c : Char) : ([p, q]).isPrefixOf [c] = false := by
  simp [List.isPrefixOf]

theorem pairPrefix_headne (p q c : Char) (cs : List Char) (h : p ≠ c) :
    ([p, q]).isPrefixOf (c :: cs) = false := by
  have hbeq : (p == c) = false := beq_eq_false_iff_ne.mpr h
  simp [List.isPrefixOf, hbeq]

theorem pairPrefix_secondne (p q d : Char) (t : List Char) (h : q ≠ d) :
    ([p, q]).isPrefixOf (p :: d :: t) = false := by
  have hbeq : (q == d) = false := beq_eq_false_iff_ne.mpr h
  simp [List.isPrefixOf, hbeq]

theorem pairPrefix_amp (x : Char) (t : List Char) :
    (['&', x]).isPrefixOf ('&' :: t) = ([x]).isPrefixOf t := by
  simp [List.isPrefixOf]

theorem singlePrefix_headne (x : Char) (t : List Char) (h : t.head? ≠ some x) :
    ([x]).isPrefixOf t = false := by
  cases t with
  | nil => rfl
  | cons y ys =>
    have hxy : x ≠ y := fun he => h (by rw [he]; rfl)
    have hbeq : (x == y) = false := beq_eq_false_iff_ne.mpr hxy
    simp [List.isPrefixOf, hbeq]

/-! Digit-string facts about `natChars` (the embedding of `str(p)`). -/

theorem natCharsAux_mem (fuel : Nat) :
    ∀ (n : Nat) (acc : List Char) (c : Char), c ∈ natCharsAux fuel n acc →
      (∃ d, c = digitChar d) ∨ c ∈ acc := by
  induction fuel with
  | zero => intro n acc c h; right; exact h
  | succ f ih =>
    intro n acc c h
    simp only [natCharsAux] at h
    by_cases hn : n < 10
    · rw [if_pos hn] at h
      rcases List.mem_cons.mp h with h1 | h2
      · exact Or.inl ⟨n, h1⟩
      · exact Or.inr h2
    · rw [if_neg hn] at h
      rcases ih _ _ _ h with h1 | h2
      · exact Or.inl h1
      · rcases List.mem_cons.mp h2 with h3 | h4
        · exact Or.inl ⟨n % 10, h3⟩
        · exact Or.inr h4

theorem natChars_mem (n : Nat) (c : Char) (h : c ∈ natChars n) :
    ∃ d, c = digitChar d := by
  rcases natCharsAux_mem (n + 1) n [] c h with h1 | h2
  · exact h1
  · simp at h2

theorem natCharsAux_head (fuel : Nat) :
    ∀ (n : Nat) (acc : List Char), natCharsAux fuel n acc = acc ∨
      ∃ d rest, natCharsAux fuel n acc = digitChar d :: rest := by
  induction fuel with
  | zero => intro n acc; left; rfl
  | succ f ih =>
    intro n acc
    simp only [natCharsAux]
    by_cases hn : n < 10
    · rw [if_pos hn]; exact Or.inr ⟨n, acc, rfl⟩
    · rw [if_neg hn]
      rcases ih (n / 10) (digitChar (n % 10) :: acc) with h1 | h2
      · exact Or.inr ⟨n % 10, acc, h1⟩
      · exact Or.inr h2

theorem natChars_head (n : Nat) : ∃ d rest, natChars n = digitChar d :: rest := by
  simp only [natChars, natCharsAux]
  by_cases hn : n < 10
  · rw [if_pos hn]; exact ⟨n, [], rfl⟩
  · rw [if_neg hn]
    rcases natCharsAux_head n (n / 10) [digitChar (n % 10)] with h1 | h2
    · exact ⟨n % 10, [], by rw [h1]⟩
    · exact h2

theorem natChars_ne_nil (n : Nat) : natChars n ≠ [] := by
  rcases natChars_head n with ⟨d, rest, h⟩
  simp [h]

theorem digitChar_ne (d : Nat) :
    digitChar d ≠ '&' ∧ digitChar d ≠ 'N' ∧ digitChar d ≠ 'P' := by
  unfold digitChar
  split <;> exact ⟨by decide, by decide, by decide⟩

theorem amp_not_mem_natChars (n : Nat) : '&' ∉ natChars n := by
  intro h
  rcases natChars_mem n _ h with ⟨d, hd⟩
  exact (digitChar_ne d).1 hd.symm

theorem natChars_head_ne_N (n : Nat) : (natChars n).head? ≠ some 'N' := by
  rcases natChars_head n with ⟨d, rest, h⟩
  rw [h]
  intro heq
  exact (digitChar_ne d).2.1 (Option.some.inj heq)

/-- Replacing two distinct two-character `&`-tokens commutes when neither
replacement contains `&`, is empty, or starts with the other token's second
character.  This is the order-independence of the footer substitution. -/
theorem replaceAll_two_comm (c1 c2 : Char) (r1 r2 : List Char)
    (hc1 : c1 ≠ '&') (hc2 : c2 ≠ '&') (hcc : c1 ≠ c2)
    (hr1a : '&' ∉ r1) (hr2a : '&' ∉ r2)
    (hr1n : r1 ≠ []) (hr2n : r2 ≠ [])
    (hr1h : r1.head? ≠ some c2) (hr2h : r2.head? ≠ some c1) :
    ∀ s, replaceAll ['&', c2] r2 (replaceAll ['&', c1] r1 s)
       = replaceAll ['&', c1] r1 (replaceAll ['&', c2] r2 s) := by
  suffices hmain : ∀ (fuel : Nat) (s : List Char), s.length ≤ fuel →
      replaceAll ['&', c2] r2 (replaceAll ['&', c1] r1 s)
        = replaceAll ['&', c1] r1 (replaceAll ['&', c2] r2 s) by
    intro s; exact hmain s.length s (le_refl _)
  intro fuel
  induction fuel with
  | zero =>
    intro s hs
    have hnil : s = [] := List.length_eq_zero.mp (Nat.le_zero.mp hs)
    subst hnil; rfl
  | succ N ih =>
    intro s hs
    cases s with
    | nil => rfl
    | cons c cs =>
      by_cases hamp : c = '&'
      · subst hamp
        cases cs with
        | nil =>
          have e1 : replaceAll ['&', c1] r1 ['&'] = ['&'] :=
            replaceAll_cons_of_prefix_false _ _ _ _ (pairPrefix_one '&' c1 '&')
          have e2 : replaceAll ['&', c2] r2 ['&'] = ['&'] :=
            replaceAll_cons_of_prefix_false _ _ _ _ (pairPrefix_one '&' c2 '&')
          rw [e1, e2, e1]
        | cons d ds =>
          simp only [List.length_cons] at hs
          by_cases hd1 : c1 = d
          · subst hd1
            have hm1 : replaceAll ['&', c1] r1 ('&' :: c1 :: ds) = r1 ++ replaceAll ['&', c1] r1 ds := by
              rw [replaceAll_cons_of_match _ _ _ _ (by simp) (pairPrefix_cc '&' c1 ds)]
              simp
            have hn2 : replaceAll ['&', c2] r2 ('&' :: c1 :: ds)
                = '&' :: c1 :: replaceAll ['&', c2] r2 ds := by
              rw [replaceAll_cons_of_prefix_false _ _ _ _
                  (pairPrefix_secondne '&' c2 c1 ds (fun he => hcc (he.symm)))]
              rw [replaceAll_cons_of_prefix_false _ _ _ _
                  (pairPrefix_headne '&' c2 c1 ds (Ne.symm hc1))]
            rw [hm1, hn2]
            rw [replaceAll_append_left '&' [c2] r2 r1 _ hr1a]
            rw [replaceAll_cons_of_match _ _ _ _ (by simp)
              (pairPrefix_cc '&' c1 (replaceAll ['&', c2] r2 ds))]
            rw [ih ds (by omega)]
            simp
          · by_cases hd2 : c2 = d
            · subst hd2
              have hm2 : replaceAll ['&', c2] r2 ('&' :: c2 :: ds) = r2 ++ replaceAll ['&', c2] r2 ds := by
                rw [replaceAll_cons_of_match _ _ _ _ (by simp) (pairPrefix_cc '&' c2 ds)]
                simp
              have hn1 : replaceAll ['&', c1] r1 ('&' :: c2 :: ds)
                  = '&' :: c2 :: replaceAll ['&', c1] r1 ds := by
                rw [replaceAll_cons_of_prefix_false _ _ _ _
                    (pairPrefix_secondne '&' c1 c2 ds hcc)]
                rw [replaceAll_cons_of_prefix_false _ _ _ _
                    (pairPrefix_headne '&' c1 c2 ds (Ne.symm hc2))]
              rw [hm2, hn1]
              rw [replaceAll_append_left '&' [c1] r1 r2 _ hr2a]
              rw [replaceAll_cons_of_match _ _ _ _ (by simp)
                (pairPrefix_cc '&' c2 (replaceAll ['&', c1] r1 ds))]
              simp only [List.length_cons, List.length_nil, List.drop_succ_cons,
                List.drop_zero]
              rw [ih ds (by omega)]
            · have hn1 : replaceAll ['&', c1] r1 ('&' :: d :: ds)
                  = '&' :: replaceAll ['&', c1] r1 (d :: ds) :=
                replaceAll_cons_of_prefix_false _ _ _ _
                  (pairPrefix_secondne '&' c1 d ds hd1)
              have hn2 : replaceAll ['&', c2] r2 ('&' :: d :: ds)
                  = '&' :: replaceAll ['&', c2] r2 (d :: ds) :=
                replaceAll_cons_of_prefix_false _ _ _ _
                  (pairPrefix_secondne '&' c2 d ds hd2)
              have hh1 : (replaceAll ['&', c1] r1 (d :: ds)).head? ≠ some c2 := by
                rcases replaceAll_head_cases ['&', c1] r1 (d :: ds) hr1n with hc | hc
                · rw [hc]
                  intro heq
                  exact hd2 (Option.some.inj heq).symm
                · rw [hc]; exact hr1h
              have hh2 : (replaceAll ['&', c2] r2 (d :: ds)).head? ≠ some c1 := by
                rcases replaceAll_head_cases ['&', c2] r2 (d :: ds) hr2n with hc | hc
                · rw [hc]
                  intro heq
                  exact hd1 (Option.some.inj heq).symm
                · rw [hc]; exact hr2h
              rw [hn1, hn2]
              have hs1 : replaceAll ['&', c2] r2 ('&' :: replaceAll ['&', c1] r1 (d :: ds))
                  = '&' :: replaceAll ['&', c2] r2 (replaceAll ['&', c1] r1 (d :: ds)) := by
                apply replaceAll_cons_of_prefix_false
                rw [pairPrefix_amp, singlePrefix_headne c2 _ hh1]
              have hs2 : replaceAll ['&', c1] r1 ('&' :: replaceAll ['&', c2] r2 (d :: ds))
                  = '&' :: replaceAll ['&', c1] r1 (replaceAll ['&', c2] r2 (d :: ds)) := by
                apply replaceAll_cons_of_prefix_false
                rw [pairPrefix_amp, singlePrefix_headne c1 _ hh2]
              rw [hs1, hs2, ih (d :: ds) (by simp; omega)]
      · simp only [List.length_cons] at hs
        have hn1 : replaceAll ['&', c1] r1 (c :: cs) = c :: replaceAll ['&', c1] r1 cs :=
          replaceAll_cons_of_prefix_false _ _ _ _
            (pairPrefix_headne '&' c1 c cs (fun he => hamp he.symm))
        have hn2 : replaceAll ['&', c2] r2 (c :: cs) = c :: replaceAll ['&', c2] r2 cs :=
          replaceAll_cons_of_prefix_false _ _ _ _
            (pairPrefix_headne '&' c2 c cs (fun he => hamp he.symm))
        rw [hn1, hn2]
        have hs1 : replaceAll ['&', c2] r2 (c :: replaceAll ['&', c1] r1 cs)
            = c :: replaceAll ['&', c2] r2 (replaceAll ['&', c1] r1 cs) :=
          replaceAll_cons_of_prefix_false _ _ _ _
            (pairPrefix_headne '&' c2 c _ (fun he => hamp he.symm))
        have hs2 : replaceAll ['&', c1] r1 (c :: replaceAll ['&', c2] r2 cs)
            = c :: replaceAll ['&', c1] r1 (replaceAll ['&', c2] r2 cs) :=
          replaceAll_cons_of_prefix_false _ _ _ _
            (pairPrefix_headne '&' c1 c _ (fun he => hamp he.symm))
        rw [hs1, hs2, ih cs (by omega)]

/-- C5 counterexample: the template `"\x7bnb\x7d"` contains neither `&P`
nor `&N`, so the claim says it passes through unchanged; but it is fpdf's
internal total-pages alias, and after finalization the rendered footer of
page 1 of a 3-page document reads `"3"`, not `"\x7bnb\x7d"`. -/
theorem C5_counterexample :
    occursB pToken nbAlias = false ∧ occursB nToken nbAlias = false ∧
    rendered_footer nbAlias 1 3 = natChars 3 ∧ natChars 3 ≠ nbAlias :=
  ⟨by decide, by decide, by decide, by decide⟩

/-- C5 amended: `&P` becomes the decimal page number and `&N` the decimal
total page count (the same total on every page, substituted by one
finalization pass), substitution order does not affect the result, and any
template free of `&P`, `&N` *and* the internal alias `\x7bnb\x7d` passes
through unchanged — but a literal `\x7bnb\x7d` is consumed by the
finalization pass and becomes the total page count.  `"Page &P of &N"` on a
3-page document renders page 2 as exactly `"Page 2 of 3"`. -/
theorem C5_amended :
    (rendered_footer "Page &P of &N".data 2 3 = "Page 2 of 3".data ∧
     rendered_footer "&P&P-&N&N".data 2 3 = "22-33".data) ∧
    (∀ (t : List Char) (p : Nat),
      replaceAll nToken nbAlias (replaceAll pToken (natChars p) t)
        = replaceAll pToken (natChars p) (replaceAll nToken nbAlias t)) ∧
    (∀ (t : List Char) (p n : Nat), occursB pToken t = false →
      occursB nToken t = false → occursB nbAlias t = false →
      rendered_footer t p n = t) ∧
    (∀ (p n : Nat), rendered_footer nbAlias p n = natChars n) ∧
    (∀ (opts : ConversionOptions) (sheets : List Sheet) (i : Nat),
      i < (run_layout opts sheets).pages →
      (run_layout opts sheets).footers[i]? =
        some (rendered_footer opts.footerText (i + 1) (run_layout opts sheets).pages)) := by
  refine ⟨⟨by decide, by decide⟩, ?_, ?_, ?_, ?_⟩
  · intro t p
    simp only [pToken, nToken]
    exact replaceAll_two_comm 'P' 'N' (natChars p) nbAlias (by decide) (by decide)
      (by decide) (amp_not_mem_natChars p) (by decide) (natChars_ne_nil p)
      (by decide) (natChars_head_ne_N p) (by decide) t
  · intro t p n h1 h2 h3
    simp only [rendered_footer, pdfFooter, aliasNbSubst]
    simp only [pToken] at h1
    simp only [nToken] at h2
    rw [replaceAll_of_not_occurs _ _ t h1, replaceAll_of_not_occurs _ _ t h2,
      replaceAll_of_not_occurs nbAlias (natChars n) t h3]
  · intro p n
    simp only [rendered_footer, pdfFooter, aliasNbSubst]
    rw [replaceAll_of_not_occurs ['&', 'P'] (natChars p) nbAlias (by decide),
      replaceAll_of_not_occurs ['&', 'N'] nbAlias nbAlias (by decide)]
    have hstep : replaceAll nbAlias (natChars n) nbAlias =
        natChars n ++ replaceAll nbAlias (natChars n) [] := by
      simp only [nbAlias]
      rw [replaceAll_cons_of_match _ _ _ _ (by decide) (by decide)]
      simp only [List.length_cons, List.length_nil, List.drop_succ_cons,
        List.drop_zero]
    rw [hstep, replaceAll_nil, List.append_nil]
  · intro opts sheets i hi
    simp only [run_layout] at hi ⊢
    rw [List.getElem?_map, List.getElem?_range hi]
    rfl

/-- Witness for `C5_amended`: a token-free template passes through, and
page 1 of a concrete one-sheet run carries the finalised default footer. -/
theorem C5_witness :
    (occursB pToken "hello".data = false ∧
      rendered_footer "hello".data 2 3 = "hello".data) ∧
    (0 < (run_layout optsDefault [sheetSmall]).pages ∧
      (run_layout optsDefault [sheetSmall]).footers[0]? =
        some (rendered_footer optsDefault.footerText 1
          (run_layout optsDefault [sheetSmall]).pages)) :=
  ⟨⟨by decide, C5_amended.2.2.1 "hello".data 2 3 (by decide) (by decide) (by decide)⟩,
   ⟨by decide, C5_amended.2.2.2.2 optsDefault [sheetSmall] 0 (by decide)⟩⟩

/-! ## Layout-engine lemmas (for C1 and C2) -/

theorem autoBreak_x (g : Geometry) (h : ℚ) (st : LayoutState) :
    (autoBreak g h st).x = st.x := by
  unfold autoBreak; split <;> rfl

theorem autoBreak_instrs (g : Geometry) (h : ℚ) (st : LayoutState) :
    (autoBreak g h st).instrs = st.instrs := by
  unfold autoBreak; split <;> rfl

theorem autoBreak_of_fits (g : Geometry) (h : ℚ) (st : LayoutState)
    (hf : st.y + h ≤ g.trigger) : autoBreak g h st = st := by
  unfold autoBreak
  rw [if_neg (not_lt.mpr hf)]

theorem autoBreak_y_le (g : Geometry) (h : ℚ) (st : LayoutState)
    (hg : g.t_margin + h ≤ g.trigger) :
    (autoBreak g h st).y + h ≤ g.trigger := by
  unfold autoBreak; split_ifs with hb
  · exact hg
  · exact not_lt.mp hb

theorem cellOp_instrs (g : Geometry) (w h : ℚ) (k : InstrKind) (ln : Nat)
    (st : LayoutState) :
    (cellOp g w h k ln st).instrs = st.instrs ++
      [⟨(autoBreak g h st).page, (autoBreak g h st).x, (autoBreak g h st).y,
        (if w = 0 then g.w - g.r_margin - (autoBreak g h st).x else w), h, k⟩] := by
  simp only [cellOp]
  split_ifs <;> simp [autoBreak_instrs]

theorem cellOp_presQ (g : Geometry) (p1 : Nat) (w h : ℚ) (k : InstrKind)
    (ln : Nat) (st : LayoutState)
    (hg : g.t_margin + h ≤ g.trigger) (hk : k ≠ .header)
    (hinv : ∀ i ∈ st.instrs, (i.kind = .header → i.page = p1) ∧ i.y + i.h ≤ g.trigger) :
    ∀ i ∈ (cellOp g w h k ln st).instrs,
      (i.kind = .header → i.page = p1) ∧ i.y + i.h ≤ g.trigger := by
  intro i hi
  rw [cellOp_instrs] at hi
  rcases List.mem_append.mp hi with hi | hi
  · exact hinv i hi
  · simp only [List.mem_singleton] at hi
    subst hi
    exact ⟨fun hkk => absurd hkk hk, autoBreak_y_le g h st hg⟩

theorem cellOp_page_noBreak (g : Geometry) (w h : ℚ) (k : InstrKind) (ln : Nat)
    (st : LayoutState) (hf : st.y + h ≤ g.trigger) :
    (cellOp g w h k ln st).page = st.page := by
  simp only [cellOp, autoBreak_of_fits _ _ _ hf]
  split_ifs <;> rfl

theorem cellOp_instrs_noBreak (g : Geometry) (w h : ℚ) (k : InstrKind) (ln : Nat)
    (st : LayoutState) (hf : st.y + h ≤ g.trigger) :
    (cellOp g w h k ln st).instrs = st.instrs ++
      [⟨st.page, st.x, st.y, (if w = 0 then g.w - g.r_margin - st.x else w), h, k⟩] := by
  rw [cellOp_instrs, autoBreak_of_fits _ _ _ hf]

theorem cellOp_y_noBreak0 (g : Geometry) (w h : ℚ) (k : InstrKind)
    (st : LayoutState) (hf : st.y + h ≤ g.trigger) :
    (cellOp g w h k 0 st).y = st.y := by
  simp only [cellOp, autoBreak_of_fits _ _ _ hf]
  rfl

theorem cellOp_y_noBreak1 (g : Geometry) (w h : ℚ) (k : InstrKind)
    (st : LayoutState) (hf : st.y + h ≤ g.trigger) :
    (cellOp g w h k 1 st).y = st.y + h := by
  simp only [cellOp, autoBreak_of_fits _ _ _ hf]
  rfl

theorem cellOp_eval2 (g : Geometry) (w h : ℚ) (k : InstrKind) (st : LayoutState)
    (hf : st.y + h ≤ g.trigger) (hw : w ≠ 0) :
    cellOp g w h k 2 st = { st with
      y := st.y + h
      lasth := h
      instrs := st.instrs ++ [⟨st.page, st.x, st.y, w, h, k⟩] } := by
  simp only [cellOp, autoBreak_of_fits _ _ _ hf, if_neg hw]
  rfl

theorem mcLines_mono (g : Geometry) (w h : ℚ) (r c : Nat) :
    ∀ (n j : Nat) (st : LayoutState) (i : Instr), i ∈ st.instrs →
      i ∈ (mcLines g w h r c j n st).instrs := by
  intro n
  induction n with
  | zero => intro j st i hi; exact hi
  | succ m ih =>
    intro j st i hi
    simp only [mcLines]
    apply ih
    rw [cellOp_instrs]
    exact List.mem_append.mpr (Or.inl hi)

theorem mcLines_presQ (g : Geometry) (p1 : Nat) (w : ℚ) (r c : Nat)
    (hg : g.t_margin + 8 ≤ g.trigger) :
    ∀ (n j : Nat) (st : LayoutState),
      (∀ i ∈ st.instrs, (i.kind = .header → i.page = p1) ∧ i.y + i.h ≤ g.trigger) →
      ∀ i ∈ (mcLines g w 8 r c j n st).instrs,
        (i.kind = .header → i.page = p1) ∧ i.y + i.h ≤ g.trigger := by
  intro n
  induction n with
  | zero => intro j st hinv; exact hinv
  | succ m ih =>
    intro j st hinv
    simp only [mcLines]
    exact ih (j + 1) _ (cellOp_presQ g p1 w 8 (.body r c j) 2 st hg (by simp) hinv)

theorem multi_cell_mono (g : Geometry) (w h : ℚ) (r c n : Nat) (st : LayoutState)
    (i : Instr) (hi : i ∈ st.instrs) : i ∈ (multi_cell g w h r c n st).instrs := by
  simp only [multi_cell]
  exact mcLines_mono g _ h r c n 0 st i hi

theorem multi_cell_presQ (g : Geometry) (p1 : Nat) (w : ℚ) (r c n : Nat)
    (st : LayoutState) (hg : g.t_margin + 8 ≤ g.trigger)
    (hinv : ∀ i ∈ st.instrs, (i.kind = .header → i.page = p1) ∧ i.y + i.h ≤ g.trigger) :
    ∀ i ∈ (multi_cell g w 8 r c n st).instrs,
      (i.kind = .header → i.page = p1) ∧ i.y + i.h ≤ g.trigger := by
  simp only [multi_cell]
  exact mcLines_presQ g p1 _ r c hg n 0 st hinv

theorem rowLoop_mono (g : Geometry) (colW : ℚ) (r : Nat) :
    ∀ (row : List Nat) (k : Nat) (p : LayoutState × ℚ) (i : Instr),
      i ∈ p.1.instrs → i ∈ (rowLoop g colW r k row p).1.instrs := by
  intro row
  induction row with
  | nil => intro k p i hi; exact hi
  | cons c0 rest ih =>
    intro k p i hi
    obtain ⟨st, maxY⟩ := p
    simp only [rowLoop]
    exact ih (k + 1) _ i (multi_cell_mono g colW 8 r k c0 _ i hi)

theorem rowLoop_presQ (g : Geometry) (colW : ℚ) (p1 r : Nat)
    (hg : g.t_margin + 8 ≤ g.trigger) :
    ∀ (row : List Nat) (k : Nat) (p : LayoutState × ℚ),
      (∀ i ∈ p.1.instrs, (i.kind = .header → i.page = p1) ∧ i.y + i.h ≤ g.trigger) →
      ∀ i ∈ (rowLoop g colW r k row p).1.instrs,
        (i.kind = .header → i.page = p1) ∧ i.y + i.h ≤ g.trigger := by
  intro row
  induction row with
  | nil => intro k p hinv; exact hinv
  | cons c0 rest ih =>
    intro k p hinv
    obtain ⟨st, maxY⟩ := p
    simp only [rowLoop]
    exact ih (k + 1) _ (multi_cell_presQ g p1 colW r k c0 _ hg hinv)

theorem drawRow_mono (g : Geometry) (colW : ℚ) (r : Nat) (row : List Nat)
    (st : LayoutState) (i : Instr) (hi : i ∈ st.instrs) :
    i ∈ (drawRow g colW r row st).instrs := by
  simp only [drawRow, set_y]
  exact rowLoop_mono g colW r row 0 (st, st.y) i hi

theorem drawRow_presQ (g : Geometry) (colW : ℚ) (p1 r : Nat) (row : List Nat)
    (st : LayoutState) (hg : g.t_margin + 8 ≤ g.trigger)
    (hinv : ∀ i ∈ st.instrs, (i.kind = .header → i.page = p1) ∧ i.y + i.h ≤ g.trigger) :
    ∀ i ∈ (drawRow g colW r row st).instrs,
      (i.kind = .header → i.page = p1) ∧ i.y + i.h ≤ g.trigger := by
  simp only [drawRow, set_y]
  exact rowLoop_presQ g colW p1 r hg row 0 (st, st.y) hinv

theorem drawRows_presQ (g : Geometry) (colW : ℚ) (p1 : Nat)
    (hg : g.t_margin + 8 ≤ g.trigger) :
    ∀ (rows : List (List Nat)) (r : Nat) (st : LayoutState),
      (∀ i ∈ st.instrs, (i.kind = .header → i.page = p1) ∧ i.y + i.h ≤ g.trigger) →
      ∀ i ∈ (drawRows g colW r rows st).instrs,
        (i.kind = .header → i.page = p1) ∧ i.y + i.h ≤ g.trigger := by
  intro rows
  induction rows with
  | nil => intro r st hinv; exact hinv
  | cons row rest ih =>
    intro r st hinv
    simp only [drawRows]
    exact ih (r + 1) _ (drawRow_presQ g colW p1 r row st hg hinv)

theorem drawHeaders_spec (g : Geometry) (colW : ℚ) :
    ∀ (hs : List String) (st : LayoutState), st.y + 8 ≤ g.trigger →
      (drawHeaders g colW hs st).y = st.y ∧
      (drawHeaders g colW hs st).page = st.page ∧
      ∀ i ∈ (drawHeaders g colW hs st).instrs,
        i ∈ st.instrs ∨ (i.kind = .header ∧ i.page = st.page ∧ i.y = st.y ∧ i.h = 8) := by
  intro hs
  induction hs with
  | nil => intro st _; exact ⟨rfl, rfl, fun i hi => Or.inl hi⟩
  | cons hd tl ih =>
    intro st hfit
    simp only [drawHeaders, List.foldl_cons] at ih ⊢
    have hy' : (cellOp g colW 8 .header 0 st).y = st.y := cellOp_y_noBreak0 g colW 8 .header st hfit
    have hpage' : (cellOp g colW 8 .header 0 st).page = st.page :=
      cellOp_page_noBreak g colW 8 .header 0 st hfit
    have hinstrs' := cellOp_instrs_noBreak g colW 8 .header 0 st hfit
    have hmain := ih (cellOp g colW 8 .header 0 st) (by rw [hy']; exact hfit)
    refine ⟨hmain.1.trans hy', (hmain.2.1).trans hpage', ?_⟩
    intro i hi
    rcases hmain.2.2 i hi with hmem | htag
    · rw [hinstrs'] at hmem
      rcases List.mem_append.mp hmem with hmem | hmem
      · exact Or.inl hmem
      · simp only [List.mem_singleton] at hmem
        subst hmem
        exact Or.inr ⟨rfl, rfl, rfl, rfl⟩
    · exact Or.inr ⟨htag.1, htag.2.1.trans hpage', htag.2.2.1.trans hy', htag.2.2.2⟩

theorem mcLines_noBreak (g : Geometry) (w : ℚ) (r c : Nat) (hw : w ≠ 0) :
    ∀ (n j : Nat) (st : LayoutState),
      st.y + 8 * (n : ℚ) ≤ g.trigger →
      (mcLines g w 8 r c j n st).y = st.y + 8 * (n : ℚ) ∧
      (mcLines g w 8 r c j n st).page = st.page ∧
      (mcLines g w 8 r c j n st).x = st.x ∧
      (0 < n → (⟨st.page, st.x, st.y, w, 8, .body r c j⟩ : Instr)
        ∈ (mcLines g w 8 r c j n st).instrs) := by
  intro n
  induction n with
  | zero =>
    intro j st _
    refine ⟨by simp [mcLines], rfl, rfl, fun h => absurd h (by simp)⟩
  | succ m ih =>
    intro j st hfit
    have hm0 : (0 : ℚ) ≤ (m : ℚ) := Nat.cast_nonneg m
    have hcast : ((m + 1 : ℕ) : ℚ) = (m : ℚ) + 1 := by push_cast; ring
    have hf1 : st.y + 8 ≤ g.trigger := by
      rw [hcast] at hfit; linarith
    have hstep := cellOp_eval2 g w 8 (.body r c j) st hf1 hw
    simp only [mcLines, hstep]
    have hfit' : st.y + 8 + 8 * (m : ℚ) ≤ g.trigger := by
      rw [hcast] at hfit; linarith
    have hrec := ih (j + 1) { st with
      y := st.y + 8
      lasth := 8
      instrs := st.instrs ++ [⟨st.page, st.x, st.y, w, 8, .body r c j⟩] } hfit'
    refine ⟨?_, hrec.2.1, hrec.2.2.1, ?_⟩
    · rw [hrec.1]; rw [hcast]; ring
    · intro _
      apply mcLines_mono
      exact List.mem_append.mpr (Or.inr (List.mem_singleton.mpr rfl))

theorem multi_cell_noBreak (g : Geometry) (colW : ℚ) (r c : Nat) (n : Nat)
    (st : LayoutState) (hw : colW ≠ 0)
    (hfit : st.y + 8 * (n : ℚ) ≤ g.trigger) :
    (multi_cell g colW 8 r c n st).y = st.y + 8 * (n : ℚ) ∧
    (multi_cell g colW 8 r c n st).page = st.page ∧
    (multi_cell g colW 8 r c n st).x = g.l_margin ∧
    (0 < n → (⟨st.page, st.x, st.y, colW, 8, .body r c 0⟩ : Instr)
      ∈ (multi_cell g colW 8 r c n st).instrs) := by
  simp only [multi_cell, if_neg hw]
  have h := mcLines_noBreak g colW r c hw n 0 st hfit
  exact ⟨h.1, h.2.1, trivial, h.2.2.2⟩

theorem rowLoop_spec (g : Geometry) (colW : ℚ) (r : Nat)
    (hcw : 0 < colW) (hlm : 0 ≤ g.l_margin) :
    ∀ (row : List Nat) (k : Nat) (st : LayoutState) (maxY : ℚ),
      (∀ c ∈ row, 1 ≤ c) → 0 ≤ st.y →
      st.y + 8 * ((row.sum : ℕ) : ℚ) ≤ g.trigger →
      ∀ ix, ix < row.length →
        (⟨st.page, g.l_margin + ((k + ix : ℕ) : ℚ) * colW,
          st.y + 8 * (((row.take ix).sum : ℕ) : ℚ), colW, 8, .body r (k + ix) 0⟩ : Instr)
          ∈ (rowLoop g colW r k row (st, maxY)).1.instrs := by
  intro row
  induction row with
  | nil =>
    intro k st maxY _ _ _ ix hix
    simp at hix
  | cons c0 rest ih =>
    intro k st maxY hcells hy hfit ix hix
    simp only [rowLoop]
    have hx0 : (0 : ℚ) ≤ g.l_margin + (k : ℚ) * colW :=
      add_nonneg hlm (mul_nonneg (Nat.cast_nonneg k) (le_of_lt hcw))
    have h1y : (set_xy g (g.l_margin + (k : ℚ) * colW) st.y st).y = st.y := by
      simp only [set_xy, set_x, set_y]
      rw [if_pos hy]
    have h1x : (set_xy g (g.l_margin + (k : ℚ) * colW) st.y st).x =
        g.l_margin + (k : ℚ) * colW := by
      simp only [set_xy, set_x, set_y]
      rw [if_pos hx0]
    have h1page : (set_xy g (g.l_margin + (k : ℚ) * colW) st.y st).page = st.page := rfl
    have hsum : ((c0 : ℕ) : ℚ) + ((rest.sum : ℕ) : ℚ) = (((c0 :: rest).sum : ℕ) : ℚ) := by
      push_cast [List.sum_cons]; ring
    have hrsum : (0 : ℚ) ≤ ((rest.sum : ℕ) : ℚ) := Nat.cast_nonneg _
    have hfitc : (set_xy g (g.l_margin + (k : ℚ) * colW) st.y st).y + 8 * ((c0 : ℕ) : ℚ)
        ≤ g.trigger := by
      rw [h1y]; nlinarith [hsum, hfit, hrsum]
    have hmc := multi_cell_noBreak g colW r k c0 _ (ne_of_gt hcw) hfitc
    cases ix with
    | zero =>
      simp only [Nat.add_zero, List.take_zero, List.sum_nil, Nat.cast_zero, mul_zero,
        add_zero]
      apply rowLoop_mono
      have hm := hmc.2.2.2 (hcells c0 (List.mem_cons_self c0 rest))
      rw [h1page, h1x, h1y] at hm
      exact hm
    | succ jx =>
      have hy2 : (0 : ℚ) ≤ (multi_cell g colW 8 r k c0
          (set_xy g (g.l_margin + (k : ℚ) * colW) st.y st)).y := by
        rw [hmc.1, h1y]
        have : (0 : ℚ) ≤ ((c0 : ℕ) : ℚ) := Nat.cast_nonneg _
        linarith
      have hfit2 : (multi_cell g colW 8 r k c0
          (set_xy g (g.l_margin + (k : ℚ) * colW) st.y st)).y +
          8 * ((rest.sum : ℕ) : ℚ) ≤ g.trigger := by
        rw [hmc.1, h1y]
        nlinarith [hsum, hfit]
      have hjx : jx < rest.length := by
        simp only [List.length_cons] at hix
        omega
      have hmem := ih (k + 1) _ (if maxY < (multi_cell g colW 8 r k c0
          (set_xy g (g.l_margin + (k : ℚ) * colW) st.y st)).y
          then (multi_cell g colW 8 r k c0
            (set_xy g (g.l_margin + (k : ℚ) * colW) st.y st)).y else maxY)
        (fun c hc => hcells c (List.mem_cons_of_mem c0 hc)) hy2 hfit2 jx hjx
      have hpage2 : (multi_cell g colW 8 r k c0
          (set_xy g (g.l_margin + (k : ℚ) * colW) st.y st)).page = st.page := by
        rw [hmc.2.1, h1page]
      have hidx : k + 1 + jx = k + (jx + 1) := by omega
      have hyeq : (multi_cell g colW 8 r k c0
          (set_xy g (g.l_margin + (k : ℚ) * colW) st.y st)).y +
          8 * (((rest.take jx).sum : ℕ) : ℚ) =
          st.y + 8 * ((((c0 :: rest).take (jx + 1)).sum : ℕ) : ℚ) := by
        rw [hmc.1, h1y, List.take_succ_cons, List.sum_cons]
        push_cast
        ring
      rw [hpage2, hidx, hyeq] at hmem
      exact hmem

/-- C2 amended: within one body row (drawn without a page break) each cell
is placed at the vertical cursor left by the previous cell — the first line
of cell `ix` starts at `y₀ + 8 × (total wrapped lines of the cells before
it)`, at `x = l_margin + ix · col_width` — so cells of the same row with
different wrapped heights do *not* share a top edge, and cell heights are
`8 ×` their own line count rather than the row maximum. -/
theorem C2_amended (g : Geometry) (colW : ℚ) (r : Nat) (row : List Nat)
    (st : LayoutState)
    (hcells : ∀ c ∈ row, 1 ≤ c) (hy : 0 ≤ st.y)
    (hfit : st.y + 8 * ((row.sum : ℕ) : ℚ) ≤ g.trigger)
    (hcw : 0 < colW) (hlm : 0 ≤ g.l_margin) :
    ∀ ix, ix < row.length →
      (⟨st.page, g.l_margin + ((ix : ℕ) : ℚ) * colW,
        st.y + 8 * (((row.take ix).sum : ℕ) : ℚ), colW, 8, .body r ix 0⟩ : Instr)
        ∈ (drawRow g colW r row st).instrs := by
  intro ix hix
  simp only [drawRow, set_y]
  have h := rowLoop_spec g colW r hcw hlm row 0 st st.y hcells hy hfit ix hix
  simpa using h

/-- C2 counterexample: in sheet `sheetStair` (one row, first cell 2 wrapped
lines, second cell 1 line) the first cell's first line is drawn at
`y = 37` but the second cell's first line at `y = 53` — the cells of one
row do not start at the same vertical position. -/
theorem C2_counterexample :
    ((run_layout optsDefault [sheetStair]).instrs.any
      (fun i => i.kind == .body 0 0 0 && i.y == (37 : ℚ)) = true) ∧
    ((run_layout optsDefault [sheetStair]).instrs.any
      (fun i => i.kind == .body 0 1 0 && i.y == (53 : ℚ)) = true) ∧
    (37 : ℚ) ≠ 53 :=
  ⟨by decide, by decide, by decide⟩

/-- Witness for `C2_amended`: in the concrete row `[2, 1]` at the standard
body start state, cell 1's first line sits 16 mm below the row start. -/
theorem C2_witness :
    ((∀ c ∈ [2, 1], 1 ≤ c) ∧ (0 : ℚ) ≤ stBody.y ∧
      stBody.y + 8 * (([2, 1].sum : ℕ) : ℚ) ≤ gDefault.trigger ∧
      0 < colWidthOf gDefault 2 ∧ (0 : ℚ) ≤ gDefault.l_margin ∧
      1 < [2, 1].length) ∧
    (⟨stBody.page, gDefault.l_margin + ((1 : ℕ) : ℚ) * colWidthOf gDefault 2,
      stBody.y + 8 * ((([2, 1].take 1).sum : ℕ) : ℚ), colWidthOf gDefault 2, 8,
      .body 0 1 0⟩ : Instr)
      ∈ (drawRow gDefault (colWidthOf gDefault 2) 0 [2, 1] stBody).instrs :=
  ⟨⟨by decide, by decide, by decide, by decide, by decide, by decide⟩,
   C2_amended gDefault (colWidthOf gDefault 2) 0 [2, 1] stBody (by decide) (by decide)
     (by decide) (by decide) (by decide) 1 (by decide)⟩

/-- C1 counterexample: in the 31-row one-column sheet at default A4
geometry, a body row lands on page 2, the sheet has a header band, but
every header-band instruction is on page 1 — the header band is not
redrawn at the top of the new page. -/
theorem C1_counterexample :
    ((run_layout optsDefault [sheetData31]).instrs.any
        (fun i => i.kind.isBody && i.page == 2) = true) ∧
    ((run_layout optsDefault [sheetData31]).instrs.any
        (fun i => i.kind.isHeader) = true) ∧
    ((run_layout optsDefault [sheetData31]).instrs.all
        (fun i => !i.kind.isHeader || i.page == 1) = true) :=
  ⟨by decide, by decide, by decide⟩

/-- C1 amended: pages break automatically inside cell drawing — a wrapped
line that would cross the trigger `page height − bottom margin` (the value
each sheet's `add_page()` installs; the check is per line, not per whole
row) is moved to the top margin of a fresh page (so every emitted cell
satisfies `y + h ≤ trigger`), but the header band is never redrawn: all
header-band instructions of a sheet lie on the sheet's first page. -/
theorem C1_amended (g : Geometry) (sh : Sheet) (st : LayoutState)
    (hgeom : g.t_margin + 18 ≤ g.trigger) (hempty : st.instrs = []) :
    ∀ i ∈ (drawSheet g st sh).instrs,
      (i.kind = .header → i.page = st.page + 1) ∧ i.y + i.h ≤ g.trigger := by
  have hT10 : (add_page g st).y + 10 ≤ g.trigger := by
    simp only [add_page]; linarith
  have hTpage : (cellOp g 0 10 .title 1 (add_page g st)).page = st.page + 1 := by
    rw [cellOp_page_noBreak _ _ _ _ _ _ hT10]; rfl
  have hTy : (cellOp g 0 10 .title 1 (add_page g st)).y = g.t_margin + 10 := by
    rw [cellOp_y_noBreak1 _ _ _ _ _ hT10]; rfl
  have hTinstrs : (cellOp g 0 10 .title 1 (add_page g st)).instrs =
      [⟨st.page + 1, g.l_margin, g.t_margin, g.w - g.r_margin - g.l_margin, 10,
        .title⟩] := by
    rw [cellOp_instrs_noBreak _ _ _ _ _ _ hT10]
    simp [add_page, hempty]
  by_cases hhd : sh.headers = []
  · intro i hi
    simp only [drawSheet, if_pos hhd] at hi
    rw [hTinstrs] at hi
    simp only [List.mem_singleton] at hi
    subst hi
    refine ⟨fun hk => by simp at hk, ?_⟩
    show g.t_margin + 10 ≤ g.trigger
    linarith
  · intro i hi
    simp only [drawSheet, if_neg hhd] at hi
    have hTfit : (cellOp g 0 10 .title 1 (add_page g st)).y + 8 ≤ g.trigger := by
      rw [hTy]; linarith
    have hH := drawHeaders_spec g (colWidthOf g sh.headers.length) sh.headers _ hTfit
    have hinv : ∀ j ∈ (lnOp g (drawHeaders g (colWidthOf g sh.headers.length)
        sh.headers (cellOp g 0 10 .title 1 (add_page g st)))).instrs,
        (j.kind = .header → j.page = st.page + 1) ∧ j.y + j.h ≤ g.trigger := by
      intro j hj
      simp only [lnOp] at hj
      rcases hH.2.2 j hj with hmem | htag
      · rw [hTinstrs] at hmem
        simp only [List.mem_singleton] at hmem
        subst hmem
        refine ⟨fun hk => by simp at hk, ?_⟩
        show g.t_margin + 10 ≤ g.trigger
        linarith
      · refine ⟨fun _ => htag.2.1.trans hTpage, ?_⟩
        rw [htag.2.2.1, htag.2.2.2, hTy]
        linarith
    exact drawRows_presQ g (colWidthOf g sh.headers.length) (st.page + 1)
      (by linarith) sh.rows 0 _ hinv i hi

/-- Witness for `C1_amended` at default A4 geometry and the 31-row sheet. -/
theorem C1_witness :
    (gDefault.t_margin + 18 ≤ gDefault.trigger ∧ stInit.instrs = []) ∧
    (∀ i ∈ (drawSheet gDefault stInit sheetData31).instrs,
      (i.kind = .header → i.page = stInit.page + 1) ∧
        i.y + i.h ≤ gDefault.trigger) :=
  ⟨⟨by decide, rfl⟩, C1_amended gDefault sheetData31 stInit (by decide) rfl⟩

end ExcelApp
